import Mathlib

/-!
Verification of the reduce-side merge step (`doReduce` in
`src/mapreduce/common_reduce.go`) against its specification.

The Go function is embedded shallowly:

* a shard file's observable content is a `FileContent` — either the file
  cannot be opened (`absent`), or it holds a list of well-formed records
  possibly followed by a malformed one (`corrupt = true`, on which
  `json.Decoder.Decode` returns a non-EOF error);
* the accumulation map `rmap : map[string][]string` is an association
  list in key-insertion order; Go's unspecified `range` iteration order
  over it is modelled by an explicit enumeration function `iter`, which
  theorems quantify over where it could matter;
* `log.Fatalln` terminates the whole process, so a run's outcome is a
  `RunResult` carrying what was written to the output file before the
  exit, the sequence of `reduceF` invocations, and the `exited` flag;
* `sort.Strings` sorts byte-wise lexicographically; on UTF-8 encoded
  text the byte order coincides with the code-point order, which is
  Lean's `≤` on `String`.
-/

namespace MapReduce

/-- A key/value record, as decoded from and encoded to the JSON streams
(the `KeyValue` struct of the Go source). -/
structure KeyValue where
  Key : String
  Value : String
deriving DecidableEq

/-- Observable content of a file. `absent`: opening it fails.
`file recs corrupt`: decoding yields the records `recs` in order and then
either EOF (`corrupt = false`) or a decode error (`corrupt = true`). -/
inductive FileContent where
  | absent : FileContent
  | file (records : List KeyValue) (corrupt : Bool) : FileContent
deriving DecidableEq

/-- Outcome of one run of `doReduce`: the records appended to the output
file, the sequence of `reduceF` calls (key and value slice passed), and
whether the run ended in `log.Fatalln` (process exit) rather than a
normal return. -/
structure RunResult where
  written : List KeyValue
  calls : List (String × List String)
  exited : Bool
deriving DecidableEq

/-- Lookup in the accumulation map `rmap` (`map[string][]string`). -/
def rmapFind : List (String × List String) → String → Option (List String)
  | [], _ => none
  | (k, vs) :: rest, key => if k = key then some vs else rmapFind rest key

/-- Lines 88-95 of common_reduce.go: if the key is absent, bind it to the
one-element list holding the value; otherwise append the value to the
key's list. -/
def rmapInsert : List (String × List String) → String → String → List (String × List String)
  | [], key, v => [(key, [v])]
  | (k, vs) :: rest, key, v =>
    if k = key then (k, vs ++ [v]) :: rest else (k, vs) :: rmapInsert rest key v

/-- The key set of the accumulation map, in insertion order. -/
def rmapKeys (m : List (String × List String)) : List String := m.map Prod.fst

/-- Value of `rmap[key]` for a key known to be present (`[]` otherwise). -/
def valuesOf (m : List (String × List String)) (k : String) : List String :=
  (rmapFind m k).getD []

/-- The decode loop of lines 77-96: fold every record of one shard into
the accumulation map, in file order. -/
def addShard (m : List (String × List String)) (recs : List KeyValue) :
    List (String × List String) :=
  recs.foldl (fun acc kv => rmapInsert acc kv.Key kv.Value) m

/-- Lexicographic comparison of character lists; on UTF-8 encoded text
the code-point order below coincides with Go's byte-wise order. -/
def charsLe : List Char → List Char → Bool
  | [], _ => true
  | _ :: _, [] => false
  | a :: as, b :: bs => if a < b then true else if b < a then false else charsLe as bs

/-- The string order used by `sort.Strings`: byte-wise lexicographic. -/
def strLe (a b : String) : Bool := charsLe a.data b.data

instance : DecidableRel (fun a b : String => strLe a b = true) :=
  fun _ _ => inferInstance

/-- Strict version of `strLe`, for stating strict key monotonicity. -/
def strLt (a b : String) : Bool := strLe a b && !(strLe b a)

/-- Go `sort.Strings` (line 103): ascending byte-wise lexicographic order. -/
def sortKeys (l : List String) : List String :=
  List.insertionSort (fun a b => strLe a b = true) l

/-- The emission part of lines 105-113: for each key of `ks`, in order,
call `reduceF` on the accumulated values and encode the resulting record. -/
def emitRecords (reduceF : String → List String → String)
    (m : List (String × List String)) (ks : List String) : List KeyValue :=
  ks.map (fun k => ⟨k, reduceF k (valuesOf m k)⟩)

/-- The `reduceF` invocations performed by one emission pass. -/
def callList (m : List (String × List String)) (ks : List String) :
    List (String × List String) :=
  ks.map (fun k => (k, valuesOf m k))

/-- The main loop of `doReduce` (lines 67-115), one iteration per shard:
open the shard (failure calls `log.Fatalln`), decode all its records into
`rmap` (a malformed record calls `log.Fatalln`), then — still inside the
loop, exactly as in the source — collect the keys of `rmap`, sort them,
and reduce and emit every key, appending to the output file.  `iter m`
is the enumeration order Go's `for k := range rmap` happens to use at
loop index `m`. -/
def runShards (iter : Nat → List String → List String)
    (reduceF : String → List String → String) :
    List FileContent → Nat → List (String × List String) → List KeyValue →
      List (String × List String) → RunResult
  | [], _, _, out, calls => ⟨out, calls, false⟩
  | .absent :: _, _, _, out, calls => ⟨out, calls, true⟩
  | .file recs corrupt :: rest, m, rmap, out, calls =>
    if corrupt then ⟨out, calls, true⟩
    else
      let rmap' := addShard rmap recs
      let ks := sortKeys (iter m (rmapKeys rmap'))
      runShards iter reduceF rest (m + 1) rmap'
        (out ++ emitRecords reduceF rmap' ks) (calls ++ callList rmap' ks)

/-- Function `doReduce` with an explicit map-enumeration order. `shards m` is the
content of the intermediate file written by map task `m` for this
partition. -/
def doReduceIter (iter : Nat → List String → List String) (nMap : Nat)
    (shards : Nat → FileContent) (reduceF : String → List String → String) :
    RunResult :=
  runShards iter reduceF ((List.range nMap).map shards) 0 [] [] []

/-- Function `doReduce` of common_reduce.go, with the map enumerated in insertion
order (the choice is immaterial: see `doReduce_deterministic`). -/
def doReduce (nMap : Nat) (shards : Nat → FileContent)
    (reduceF : String → List String → String) : RunResult :=
  doReduceIter (fun _ l => l) nMap shards reduceF

/-- A shard on which `doReduce` calls `log.Fatalln`: it cannot be opened,
or its stream contains a malformed record. -/
def badFile : FileContent → Bool
  | .absent => true
  | .file _ corrupt => corrupt

/-- Reading phase of the reference algorithm (spec §4.1 steps 1-2): read
every shard fully; `none` if any shard is missing or has a malformed
record. -/
def collectShards : List FileContent → Option (List KeyValue)
  | [] => some []
  | .absent :: _ => none
  | .file recs corrupt :: rest =>
    if corrupt then none else (collectShards rest).map (recs ++ ·)

/-- Modelled from the spec: the intended reference algorithm of §4.1
("Algorithm" steps 1-5), restated in §9 — merge ALL shards into the
multimap first; then, once, collect the distinct keys, sort them, and
reduce and emit each key exactly once.  A missing or undecodable shard
fails the whole task before anything is reduced. -/
def doReduceSpec (nMap : Nat) (shards : Nat → FileContent)
    (reduceF : String → List String → String) : RunResult :=
  match collectShards ((List.range nMap).map shards) with
  | none => ⟨[], [], true⟩
  | some allRecs =>
    let rmap := addShard [] allRecs
    let ks := sortKeys (rmapKeys rmap)
    ⟨emitRecords reduceF rmap ks, callList rmap ks, false⟩

/-- Modelled from the spec: the shard-file naming scheme (§6) is a pure
deterministic function of (jobName, mapTaskIndex, reducePartitionIndex);
the Go `reduceName` itself is outside the given source file. -/
def reduceName (jobName : String) (mapTask reduceTask : Nat) : String :=
  "mrtmp." ++ jobName ++ "-" ++ toString mapTask ++ "-" ++ toString reduceTask

/-- Point update of a file system. -/
def updateFS (fs : String → FileContent) (p : String) (c : FileContent) :
    String → FileContent :=
  fun q => if q = p then c else fs q

/-- Opening the output file, `os.OpenFile` with `O_WRONLY|O_APPEND|O_CREATE` (line 60):
create the file empty if it is absent, otherwise leave it as is. -/
def ensureFile : FileContent → FileContent
  | .absent => .file [] false
  | c => c

/-- Appending encoded records to a file (`O_APPEND` handle). -/
def appendOut : FileContent → List KeyValue → FileContent
  | .absent, ws => .file ws false
  | .file recs c, ws => .file (recs ++ ws) c

/-- The main loop of `doReduce` again, at file-system level: shard `m` is
read at path `reduceName jobName m reduceTask`, and each emission pass
appends to `outFile`.  Returns the final file system and whether the
process exited via `log.Fatalln`. -/
def runShardsFS (jobName : String) (reduceTask : Nat) (outFile : String)
    (reduceF : String → List String → String) :
    List Nat → List (String × List String) → (String → FileContent) →
      (String → FileContent) × Bool
  | [], _, fs => (fs, false)
  | m :: rest, rmap, fs =>
    match fs (reduceName jobName m reduceTask) with
    | .absent => (fs, true)
    | .file recs corrupt =>
      if corrupt then (fs, true)
      else
        let rmap' := addShard rmap recs
        let ks := sortKeys (rmapKeys rmap')
        runShardsFS jobName reduceTask outFile reduceF rest rmap'
          (updateFS fs outFile (appendOut (fs outFile) (emitRecords reduceF rmap' ks)))

/-- Function `doReduce` at file-system level: open (and, if needed, create) the
output file first (line 60), then run the shard loop. -/
def doReduceFS (jobName : String) (reduceTask : Nat) (outFile : String)
    (nMap : Nat) (fs : String → FileContent)
    (reduceF : String → List String → String) : (String → FileContent) × Bool :=
  runShardsFS jobName reduceTask outFile reduceF (List.range nMap) []
    (updateFS fs outFile (ensureFile (fs outFile)))

/-- Reading a decimal numeral (for the spec's scenario reduce function). -/
def parseNat (s : String) : Nat :=
  s.data.foldl (fun a c => a * 10 + (c.toNat - 48)) 0

/-- The scenario's reduce function: sum of the values as integers. -/
def sumF (_ : String) (vs : List String) : String :=
  toString (vs.foldl (fun a s => a + parseNat s) 0)

/-- The spec §8 scenario shards: shard 0 holds ("a","1"),("b","2");
shard 1 holds ("a","3"). -/
def scShards : Nat → FileContent
  | 0 => .file [⟨"a", "1"⟩, ⟨"b", "2"⟩] false
  | 1 => .file [⟨"a", "3"⟩] false
  | _ => .absent

/-- The spec §8 missing-shard scenario: shard 1 cannot be opened. -/
def missingShard1 : Nat → FileContent
  | 0 => .file [⟨"a", "1"⟩, ⟨"b", "2"⟩] false
  | _ => .absent

/-- Strict ascent of a key sequence in the byte-wise lexicographic order
(the output ordering that spec §8 "Ordering" requires). -/
def strictlyIncreasing : List String → Bool
  | [] => true
  | [_] => true
  | a :: b :: rest => strLt a b && strictlyIncreasing (b :: rest)

/-- A concrete one-shard file system for exercising the frame property:
the single shard of job "job", partition 0, exists and is well-formed. -/
def exampleFS : String → FileContent :=
  fun p => if p = reduceName "job" 0 0 then .file [⟨"a", "1"⟩] false else .absent

theorem charsLe_total : ∀ as bs : List Char, charsLe as bs = true ∨ charsLe bs as = true
  | [], _ => Or.inl rfl
  | _ :: _, [] => Or.inr rfl
  | a :: as, b :: bs => by
    rcases lt_trichotomy a b with h | h | h
    · left; simp [charsLe, h]
    · subst h
      rcases charsLe_total as bs with ih | ih
      · left; simp [charsLe, lt_irrefl, ih]
      · right; simp [charsLe, lt_irrefl, ih]
    · right; simp [charsLe, h]

theorem charsLe_trans : ∀ as bs cs : List Char,
    charsLe as bs = true → charsLe bs cs = true → charsLe as cs = true
  | [], _, _ => by intro h1 h2; rfl
  | a :: as, [], cs => by intro h1 h2; simp [charsLe] at h1
  | a :: as, b :: bs, [] => by intro h1 h2; simp [charsLe] at h2
  | a :: as, b :: bs, c :: cs => by
    intro h1 h2
    by_cases hab : a < b
    · by_cases hbc : b < c
      · simp [charsLe, lt_trans hab hbc]
      · by_cases hcb : c < b
        · simp [charsLe, hbc, hcb] at h2
        · have hbc' : b = c := le_antisymm (le_of_not_lt hcb) (le_of_not_lt hbc)
          subst hbc'
          simp [charsLe, hab]
    · by_cases hba : b < a
      · simp [charsLe, hab, hba] at h1
      · have hab' : a = b := le_antisymm (le_of_not_lt hba) (le_of_not_lt hab)
        subst hab'
        simp only [charsLe, lt_irrefl, if_false] at h1 ⊢
        by_cases hac : a < c
        · simp [hac]
        · by_cases hca : c < a
          · simp [charsLe, hac, hca] at h2
          · have hac' : a = c := le_antisymm (le_of_not_lt hca) (le_of_not_lt hac)
            subst hac'
            simp only [charsLe, lt_irrefl, if_false] at h2 ⊢
            exact charsLe_trans as bs cs h1 h2

theorem charsLe_antisymm : ∀ as bs : List Char,
    charsLe as bs = true → charsLe bs as = true → as = bs
  | [], [] => by intro _ _; rfl
  | [], _ :: _ => by intro h1 h2; simp [charsLe] at h2
  | _ :: _, [] => by intro h1 h2; simp [charsLe] at h1
  | a :: as, b :: bs => by
    intro h1 h2
    rcases lt_trichotomy a b with h | h | h
    · simp [charsLe, h, lt_asymm h] at h2
    · subst h
      simp only [charsLe, lt_irrefl, if_false] at h1 h2
      rw [charsLe_antisymm as bs h1 h2]
    · simp [charsLe, h, lt_asymm h] at h1

theorem strEq (a b : String) (h : a.data = b.data) : a = b := by
  cases a; cases b; cases h; rfl

instance : IsTotal String (fun a b => strLe a b = true) :=
  ⟨fun a b => charsLe_total a.data b.data⟩

instance : IsTrans String (fun a b => strLe a b = true) :=
  ⟨fun a b c => charsLe_trans a.data b.data c.data⟩

instance : IsAntisymm String (fun a b => strLe a b = true) :=
  ⟨fun a b h1 h2 => strEq a b (charsLe_antisymm a.data b.data h1 h2)⟩

/-- Sorting is invariant under permutation of the input: together with
totality, transitivity and antisymmetry of the order, two sorted
rearrangements of the same key multiset are the same list. -/
theorem sortKeys_eq_of_perm {l₁ l₂ : List String} (h : l₁.Perm l₂) :
    sortKeys l₁ = sortKeys l₂ :=
  List.eq_of_perm_of_sorted
    ((List.perm_insertionSort _ l₁).trans (h.trans (List.perm_insertionSort _ l₂).symm))
    (List.sorted_insertionSort _ l₁) (List.sorted_insertionSort _ l₂)

theorem runShards_bad_head (iter : Nat → List String → List String)
    (f : String → List String → String) (c : FileContent) (hc : badFile c = true)
    (rest : List FileContent) (m : Nat) (rmap : List (String × List String))
    (out : List KeyValue) (calls : List (String × List String)) :
    runShards iter f (c :: rest) m rmap out calls = ⟨out, calls, true⟩ := by
  cases c with
  | absent => rfl
  | file recs corrupt =>
    cases corrupt with
    | true => rfl
    | false => simp [badFile] at hc

theorem runShards_iter_congr (f : String → List String → String)
    {iter₁ iter₂ : Nat → List String → List String}
    (h₁ : ∀ m l, (iter₁ m l).Perm l) (h₂ : ∀ m l, (iter₂ m l).Perm l) :
    ∀ (L : List FileContent) (m : Nat) (rmap : List (String × List String))
      (out : List KeyValue) (calls : List (String × List String)),
      runShards iter₁ f L m rmap out calls = runShards iter₂ f L m rmap out calls := by
  intro L
  induction L with
  | nil => intro m rmap out calls; rfl
  | cons c rest ih =>
    intro m rmap out calls
    cases c with
    | absent => rfl
    | file recs corrupt =>
      cases corrupt with
      | true => rfl
      | false =>
        have hks : sortKeys (iter₁ m (rmapKeys (addShard rmap recs)))
            = sortKeys (iter₂ m (rmapKeys (addShard rmap recs))) :=
          sortKeys_eq_of_perm ((h₁ m _).trans (h₂ m _).symm)
        simp only [runShards, Bool.false_eq_true, if_false, hks]
        exact ih (m + 1) _ _ _

theorem runShards_stops_at_bad (iter : Nat → List String → List String)
    (f : String → List String → String) :
    ∀ L : List FileContent, (∃ c ∈ L, badFile c = true) →
      ∀ (rest rest' : List FileContent) (m : Nat) (rmap : List (String × List String))
        (out : List KeyValue) (calls : List (String × List String)),
        runShards iter f (L ++ rest) m rmap out calls
            = runShards iter f (L ++ rest') m rmap out calls ∧
          (runShards iter f (L ++ rest) m rmap out calls).exited = true := by
  intro L
  induction L with
  | nil => rintro ⟨c, hc, _⟩; exact absurd hc (List.not_mem_nil c)
  | cons c L ih =>
    rintro ⟨d, hd, hbad⟩ rest rest' m rmap out calls
    by_cases hc : badFile c = true
    · rw [List.cons_append, runShards_bad_head iter f c hc, List.cons_append,
        runShards_bad_head iter f c hc]
      exact ⟨rfl, rfl⟩
    · have hd' : d ∈ L := by
        rcases List.mem_cons.mp hd with h | h
        · subst h; exact absurd hbad hc
        · exact h
      cases c with
      | absent => simp [badFile] at hc
      | file recs corrupt =>
        cases corrupt with
        | true => simp [badFile] at hc
        | false =>
          simp only [List.cons_append, runShards, Bool.false_eq_true, if_false]
          exact ih ⟨d, hd', hbad⟩ rest rest' (m + 1) _ _ _

theorem runShards_exited_iff (iter : Nat → List String → List String)
    (f : String → List String → String) :
    ∀ (L : List FileContent) (m : Nat) (rmap : List (String × List String))
      (out : List KeyValue) (calls : List (String × List String)),
      (runShards iter f L m rmap out calls).exited = false ↔
        ∀ c ∈ L, badFile c = false := by
  intro L
  induction L with
  | nil => intro m rmap out calls; simp [runShards]
  | cons c rest ih =>
    intro m rmap out calls
    cases c with
    | absent => simp [runShards, badFile]
    | file recs corrupt =>
      cases corrupt with
      | true => simp [runShards, badFile]
      | false =>
        simp only [runShards, Bool.false_eq_true, if_false]
        rw [ih (m + 1)]
        simp [badFile]

theorem runShardsFS_frame (jobName : String) (reduceTask : Nat) (outFile : String)
    (f : String → List String → String) :
    ∀ (ms : List Nat) (rmap : List (String × List String)) (fs : String → FileContent)
      (os : List KeyValue) (c : Bool), fs outFile = .file os c →
      (∀ p, p ≠ outFile →
          (runShardsFS jobName reduceTask outFile f ms rmap fs).1 p = fs p) ∧
        ∃ ws, (runShardsFS jobName reduceTask outFile f ms rmap fs).1 outFile
          = .file (os ++ ws) c := by
  intro ms
  induction ms with
  | nil =>
    intro rmap fs os c h
    exact ⟨fun p _ => rfl, [], by simp [runShardsFS, h]⟩
  | cons m rest ih =>
    intro rmap fs os c h
    cases hopen : fs (reduceName jobName m reduceTask) with
    | absent =>
      refine ⟨fun p hp => ?_, [], ?_⟩
      · simp [runShardsFS, hopen]
      · simp [runShardsFS, hopen, h]
    | file recs corrupt =>
      cases corrupt with
      | true =>
        refine ⟨fun p hp => ?_, [], ?_⟩
        · simp [runShardsFS, hopen]
        · simp [runShardsFS, hopen, h]
      | false =>
        have hstep : runShardsFS jobName reduceTask outFile f (m :: rest) rmap fs
            = runShardsFS jobName reduceTask outFile f rest (addShard rmap recs)
                (updateFS fs outFile (appendOut (fs outFile)
                  (emitRecords f (addShard rmap recs)
                    (sortKeys (rmapKeys (addShard rmap recs)))))) := by
          simp [runShardsFS, hopen]
        have hnew : (updateFS fs outFile (appendOut (fs outFile)
            (emitRecords f (addShard rmap recs)
              (sortKeys (rmapKeys (addShard rmap recs)))))) outFile
            = .file (os ++ emitRecords f (addShard rmap recs)
                (sortKeys (rmapKeys (addShard rmap recs)))) c := by
          simp [updateFS, h, appendOut]
        obtain ⟨hframe, ws, hout⟩ := ih (addShard rmap recs) _ _ _ hnew
        rw [hstep]
        refine ⟨fun p hp => ?_, emitRecords f (addShard rmap recs)
          (sortKeys (rmapKeys (addShard rmap recs))) ++ ws, ?_⟩
        · rw [hframe p hp]
          simp [updateFS, hp]
        · rw [hout, List.append_assoc]

/-- C1: the claim says a successful run emits exactly one output record
per distinct key across all shards.  On the spec §8 scenario (two shards,
key "a" in both), the code emits a record for key "a" twice, because the
sort/reduce/emit block sits inside the per-shard loop. -/
theorem doReduce_scenario_duplicate_key :
    ((doReduce 2 scShards sumF).written.filter fun kv => kv.Key == "a").length = 2 := by
  decide

/-- C2: the claim says `reduceF` is invoked at most once per distinct key,
with the full multiset of that key's values from all shards assembled
first.  On the spec §8 scenario the code calls `reduceF` twice for key
"a": once with only shard 0's value ["1"] and once with ["1", "3"]. -/
theorem doReduce_scenario_repeated_calls :
    (doReduce 2 scShards sumF).calls
      = [("a", ["1"]), ("b", ["2"]), ("a", ["1", "3"]), ("b", ["2"])] := by
  decide

/-- C3: the claim says the output key sequence is strictly increasing in
byte-wise lexicographic order with no duplicates.  On the spec §8 scenario
the emitted key sequence is a, b, a, b — not strictly increasing and with
duplicates. -/
theorem doReduce_scenario_keys_not_increasing :
    (doReduce 2 scShards sumF).written.map KeyValue.Key = ["a", "b", "a", "b"] ∧
      strictlyIncreasing ((doReduce 2 scShards sumF).written.map KeyValue.Key)
        = false := by
  decide

/-- C4: the spec §8 scenario expects exactly the records ("a","4") and
("b","2").  The code instead writes ("a","1"), ("b","2"), ("a","4"),
("b","2"): shard 0's keys are reduced and emitted once after shard 0 and
again after shard 1. -/
theorem doReduce_scenario_output :
    (doReduce 2 scShards sumF).written
        = [⟨"a", "1"⟩, ⟨"b", "2"⟩, ⟨"a", "4"⟩, ⟨"b", "2"⟩] ∧
      (doReduce 2 scShards sumF).written ≠ [⟨"a", "4"⟩, ⟨"b", "2"⟩] := by
  decide

/-- C5: any failure to open a shard or decode a record aborts the whole
invocation (the run ends in `log.Fatalln`, i.e. `exited = true`), without
skipping the offending shard or retrying: the run's entire result is
already determined by the shards up to the failing index, so no later
shard is read and nothing further is emitted. -/
theorem doReduce_aborts_on_bad_shard (nMap : Nat) (shards : Nat → FileContent)
    (reduceF : String → List String → String) (m : Nat)
    (hm : m < nMap) (hbad : badFile (shards m) = true) :
    (doReduce nMap shards reduceF).exited = true ∧
      ∀ shards' : Nat → FileContent, (∀ k, k ≤ m → shards' k = shards k) →
        doReduce nMap shards' reduceF = doReduce nMap shards reduceF := by
  obtain ⟨r, rfl⟩ : ∃ r, nMap = (m + 1) + r := ⟨nMap - (m + 1), by omega⟩
  have hsplit : ∀ g : Nat → FileContent,
      (List.range ((m + 1) + r)).map g
        = (List.range (m + 1)).map g
            ++ ((List.range r).map fun i => g ((m + 1) + i)) := by
    intro g
    rw [List.range_add, List.map_append, List.map_map]
    rfl
  have hbadL : ∃ c ∈ (List.range (m + 1)).map shards, badFile c = true :=
    ⟨shards m, List.mem_map.mpr ⟨m, List.mem_range.mpr (Nat.lt_succ_self m), rfl⟩, hbad⟩
  constructor
  · have h := (runShards_stops_at_bad (fun _ l => l) reduceF _ hbadL
      ((List.range r).map fun i => shards ((m + 1) + i))
      ((List.range r).map fun i => shards ((m + 1) + i)) 0 [] [] []).2
    unfold doReduce doReduceIter
    rw [hsplit shards]
    exact h
  · intro shards' hagree
    have hLeq : (List.range (m + 1)).map shards' = (List.range (m + 1)).map shards := by
      apply List.map_congr_left
      intro k hk
      exact hagree k (Nat.lt_succ_iff.mp (List.mem_range.mp hk))
    unfold doReduce doReduceIter
    rw [hsplit shards', hsplit shards, hLeq]
    exact (runShards_stops_at_bad (fun _ l => l) reduceF _ hbadL
      ((List.range r).map fun i => shards' ((m + 1) + i))
      ((List.range r).map fun i => shards ((m + 1) + i)) 0 [] [] []).1

/-- C5 witness: the spec §8 missing-shard scenario — `mapCount = 2` and
shard 1 absent — makes the invocation fail. -/
theorem doReduce_aborts_on_bad_shard_witness :
    (doReduce 2 missingShard1 sumF).exited = true :=
  (doReduce_aborts_on_bad_shard 2 missingShard1 sumF 1 (by decide) (by decide)).1

/-- C6: with `mapCount = 2` and both shard files present but empty, the
run succeeds (no process exit), writes zero records, and never calls the
reduce function. -/
theorem doReduce_empty_partition (reduceF : String → List String → String) :
    doReduce 2 (fun _ => .file [] false) reduceF = ⟨[], [], false⟩ := rfl

/-- C7: for fixed shard contents and a fixed (hence deterministic) reduce
function, the run's output does not depend on the order in which Go's
`range` happens to enumerate the accumulation map: any two enumeration
orders (one per loop iteration, each a permutation of the key set) give
identical results, so repeated invocations produce identical output. -/
theorem doReduce_deterministic (iter₁ iter₂ : Nat → List String → List String)
    (nMap : Nat) (shards : Nat → FileContent)
    (reduceF : String → List String → String)
    (h₁ : ∀ m l, (iter₁ m l).Perm l) (h₂ : ∀ m l, (iter₂ m l).Perm l) :
    doReduceIter iter₁ nMap shards reduceF = doReduceIter iter₂ nMap shards reduceF :=
  runShards_iter_congr reduceF h₁ h₂ _ 0 [] [] []

/-- C7 witness: enumerating the key set in insertion order and in reversed
order gives the same run on the spec §8 scenario. -/
theorem doReduce_deterministic_witness :
    doReduceIter (fun _ l => l) 2 scShards sumF
      = doReduceIter (fun _ l => l.reverse) 2 scShards sumF :=
  doReduce_deterministic (fun _ l => l) (fun _ l => l.reverse) 2 scShards sumF
    (fun _ l => List.Perm.refl l) (fun _ l => List.reverse_perm l)

/-- C8: the only file the run ever writes is `outFile` — every other path,
shard files included, holds exactly its previous content afterwards — and
the effect on `outFile` is create-or-append: its final content is its
prior content (created empty if absent) extended by the emitted records. -/
theorem doReduceFS_frame (jobName : String) (reduceTask : Nat) (outFile : String)
    (nMap : Nat) (fs : String → FileContent)
    (reduceF : String → List String → String) :
    (∀ p, p ≠ outFile →
        (doReduceFS jobName reduceTask outFile nMap fs reduceF).1 p = fs p) ∧
      ∃ ws, (doReduceFS jobName reduceTask outFile nMap fs reduceF).1 outFile
        = appendOut (fs outFile) ws := by
  unfold doReduceFS
  cases hout : fs outFile with
  | absent =>
    have h0 : (updateFS fs outFile (ensureFile (fs outFile))) outFile
        = .file [] false := by
      simp [updateFS, hout, ensureFile]
    obtain ⟨hframe, ws, hws⟩ := runShardsFS_frame jobName reduceTask outFile reduceF
      (List.range nMap) [] _ [] false h0
    rw [hout] at hframe hws
    refine ⟨fun p hp => ?_, ws, ?_⟩
    · rw [hframe p hp]; simp [updateFS, hp]
    · rw [hws]; simp [appendOut]
  | file os c =>
    have h0 : (updateFS fs outFile (ensureFile (fs outFile))) outFile
        = .file os c := by
      simp [updateFS, hout, ensureFile]
    obtain ⟨hframe, ws, hws⟩ := runShardsFS_frame jobName reduceTask outFile reduceF
      (List.range nMap) [] _ os c h0
    rw [hout] at hframe hws
    refine ⟨fun p hp => ?_, ws, ?_⟩
    · rw [hframe p hp]; simp [updateFS, hp]
    · rw [hws]; simp [appendOut]

/-- C8 witness: on a concrete one-shard file system the shard file is
unchanged by the run. -/
theorem doReduceFS_frame_witness :
    (doReduceFS "job" 0 "out" 1 exampleFS sumF).1 (reduceName "job" 0 0)
      = exampleFS (reduceName "job" 0 0) :=
  (doReduceFS_frame "job" 0 "out" 1 exampleFS sumF).1 (reduceName "job" 0 0)
    (by decide)

/-- C9: `doReduce` returns no error value; the run returns normally
(`exited = false`) exactly when no shard is missing and no record is
malformed — every failure ends in `log.Fatalln`, i.e. process exit, so no
error is ever propagated to the caller (and the `return` statements after
the `log.Fatalln` calls never run: the exit ends the run at once). -/
theorem doReduce_no_error_return (nMap : Nat) (shards : Nat → FileContent)
    (reduceF : String → List String → String) :
    (doReduce nMap shards reduceF).exited = false ↔
      ∀ m, m < nMap → badFile (shards m) = false := by
  unfold doReduce doReduceIter
  rw [runShards_exited_iff]
  constructor
  · intro h m hm
    exact h (shards m) (List.mem_map.mpr ⟨m, List.mem_range.mpr hm, rfl⟩)
  · rintro h c hc
    obtain ⟨m, hm, rfl⟩ := List.mem_map.mp hc
    exact h m (List.mem_range.mp hm)

/-- C9 witness: with two clean shards the run returns normally. -/
theorem doReduce_no_error_return_witness :
    (doReduce 2 (fun _ => FileContent.file [⟨"a", "1"⟩] false) sumF).exited = false :=
  (doReduce_no_error_return 2 (fun _ => FileContent.file [⟨"a", "1"⟩] false) sumF).mpr
    (fun _ _ => rfl)

/-- C10: with at most one shard, `doReduce` computes exactly what the
intended reference algorithm (`doReduceSpec`: merge all shards, then sort
keys and reduce each exactly once) computes — with zero or one shard the
in-loop emission runs at most once, after the only shard is fully merged. -/
theorem doReduce_refines_spec_small (nMap : Nat) (shards : Nat → FileContent)
    (reduceF : String → List String → String) (h : nMap ≤ 1) :
    doReduce nMap shards reduceF = doReduceSpec nMap shards reduceF := by
  have hr : List.range 1 = [0] := rfl
  interval_cases nMap
  · rfl
  · cases hs : shards 0 with
    | absent =>
      unfold doReduce doReduceIter doReduceSpec
      rw [hr]
      simp [hs, runShards, collectShards]
    | file recs corrupt =>
      cases corrupt with
      | true =>
        unfold doReduce doReduceIter doReduceSpec
        rw [hr]
        simp [hs, runShards, collectShards]
      | false =>
        unfold doReduce doReduceIter doReduceSpec
        rw [hr]
        simp [hs, runShards, collectShards, List.append_nil]

/-- C10 witness: one-shard instance of the refinement, on shard 0 of the
spec §8 scenario. -/
theorem doReduce_refines_spec_small_witness :
    doReduce 1 scShards sumF = doReduceSpec 1 scShards sumF :=
  doReduce_refines_spec_small 1 scShards sumF (by decide)

end MapReduce
